import Mathlib

/-!
Verification of the channel-mirror program (`src/mirror+.py`) against its
natural-language specification.

The development shallowly embeds the three cores of the program:

* the link-rewriting engine (`LinkReplacer.replace_links`,
  `LinkReplacer._extract_param_name` and the three compiled regex patterns),
  modelled as executable functions over `List Char` that implement the exact
  left-to-right, non-greedy/greedy backtracking semantics of Python's
  `re.sub` for these three patterns;
* the content filter (`ContentFilter.should_process_message`);
* the flood-wait retry dispatcher (`_handle_flood_wait`), modelled as a pure
  state-machine consuming an attempt-indexed stream of call outcomes and
  producing a log of invocations, sleeps and the final outcome;
* the message router (`process_message` / `_send_processed_message`),
  modelled with its persistence and notification side effects collected in
  explicit lists.

Character classes use their ASCII meaning (Python's `re` on the inputs this
program handles); the float backoff multiplier 1.2 is modelled as the
rational 6/5, which is exact at the level the spec speaks about.
-/

namespace MirrorPlus

/-! ## Basic string utilities -/

/-- Whitespace characters of the regex class `\s` (ASCII range). -/
def isSpace (c : Char) : Bool :=
  c = ' ' || c = '\t' || c = '\n' || c = '\r' || c = '\x0b' || c = '\x0c'

/-- Characters admitted by the character class `[^\s)\]]`
    (the tail of regex group 1). -/
def isUrlChar (c : Char) : Bool := !(isSpace c) && !(c = ')') && !(c = ']')

/-- Characters admitted by the character class `[^&\s)\]]`
    (the parameter-value part of each pattern). -/
def isValChar (c : Char) : Bool := isUrlChar c && !(c = '&')

/-- Case-insensitive character comparison (the effect of `re.IGNORECASE`). -/
def lowerEq (a b : Char) : Bool := a.toLower = b.toLower

/-- Case-insensitive "starts with" test: `startsWithCI pat s` holds when the
    first `pat.length` characters of `s` match `pat` up to ASCII case. -/
def startsWithCI : List Char → List Char → Bool
  | [], _ => true
  | _ :: _, [] => false
  | p :: ps, s :: ss => lowerEq p s && startsWithCI ps ss

/-- Python's case-sensitive substring test `needle in hay`. -/
def isSubstr (needle : List Char) : List Char → Bool
  | [] => needle.isEmpty
  | c :: rest => needle.isPrefixOf (c :: rest) || isSubstr needle rest

/-! ## The link-rewriting engine (`LinkReplacer`) -/

def invitationCodeStr : List Char := "invitationCode".toList

def inviteStr : List Char := "invite".toList

def refStr : List Char := "ref".toList

/-- The parameter name targeted by each of the three compiled patterns, in the order
    the patterns are applied. -/
def ruleAliases : List (List Char) := [invitationCodeStr, inviteStr, refStr]

/-- Default of `config.get('replacement.invitation_code', '511726258529')`. -/
def defaultInvitationCode : List Char := "511726258529".toList

/-- `LinkReplacer._extract_param_name`: probe the full matched text for the
    target parameter names, case-sensitively and in priority order, defaulting to
    `invitationCode`. -/
def extract_param_name (matchedText : List Char) : List Char :=
  if isSubstr invitationCodeStr matchedText then invitationCodeStr
  else if isSubstr inviteStr matchedText then inviteStr
  else if isSubstr refStr matchedText then refStr
  else invitationCodeStr

/-- Match `https?://` case-insensitively at the start of `s`; on success
    return the consumed scheme text (verbatim from `s`) and the remainder. -/
def matchScheme (s : List Char) : Option (List Char × List Char) :=
  match s with
  | a :: b :: c :: d :: rest =>
    if lowerEq a 'h' && lowerEq b 't' && lowerEq c 't' && lowerEq d 'p' then
      match rest with
      | e :: f :: g :: h :: rest2 =>
        if lowerEq e 's' && f = ':' && g = '/' && h = '/' then
          some ([a, b, c, d, e, f, g, h], rest2)
        else if e = ':' && f = '/' && g = '/' then
          some ([a, b, c, d, e, f, g], h :: rest2)
        else none
      | e :: f :: g :: [] =>
        if e = ':' && f = '/' && g = '/' then some ([a, b, c, d, e, f, g], []) else none
      | _ => none
    else none
  | _ => none

/-- Walk the non-greedy `[^\s)\]]*?` tail of group 1: find the least split
    `pre ++ sep :: nameTxt ++ '=' :: after` where every character of `pre`
    is a URL character, `sep` is `?` or `&` and `nameTxt` matches `al`
    case-insensitively.  Returns `(pre, sep, nameTxt, after)`. -/
def scanParam (al : List Char) : List Char → Option (List Char × Char × List Char × List Char)
  | [] => none
  | c :: rest =>
    if (c = '?' || c = '&') && startsWithCI al rest
        && ((rest.drop al.length).head? = some '=' : Bool) then
      some ([], c, rest.take al.length, (rest.drop al.length).tail)
    else if isUrlChar c then
      match scanParam al rest with
      | some (pre, sep, nm, after) => some (c :: pre, sep, nm, after)
      | none => none
    else none

/-- A single regex match of one of the three patterns: group 1 (`g1`),
    group 2 (`sep`), the parameter name as it appears in the input
    (`nameTxt`, case preserved), the matched value, and the input remaining
    after the whole match. -/
structure LinkMatch where
  g1 : List Char
  sep : Char
  nameTxt : List Char
  value : List Char
  rest : List Char
deriving Repr, DecidableEq

/-- Group 0 of a match: the full matched text. -/
def g0 (m : LinkMatch) : List Char :=
  m.g1 ++ m.sep :: (m.nameTxt ++ '=' :: m.value)

/-- Attempt to match the pattern
    `(https?://[^\s)\]]*?)([?&])al=[^&\s)\]]*` (IGNORECASE) at the start
    of `s`, with the greedy value run. -/
def matchAt (al : List Char) (s : List Char) : Option LinkMatch :=
  match matchScheme s with
  | none => none
  | some (scheme, r1) =>
    match scanParam al r1 with
    | none => none
    | some (pre, sep, nm, after) =>
      some { g1 := scheme ++ pre, sep := sep, nameTxt := nm,
             value := after.takeWhile isValChar,
             rest := after.dropWhile isValChar }

/-- The replacement text written for a match: group 1 and the separator
    verbatim, then the re-derived parameter name, `=`, and the configured
    code (`f"\x7burl_part\x7d\x7bseparator\x7d\x7bparam_name\x7d=\x7bself.invitation_code\x7d"`). -/
def replacementFor (code : List Char) (m : LinkMatch) : List Char :=
  m.g1 ++ m.sep :: (extract_param_name (g0 m) ++ '=' :: code)

/-- One `pattern.sub(replacer, text)` pass: scan left to right, substitute
    each non-overlapping match, and continue after the match.  `fuel` bounds
    the recursion; `fuel = s.length` always suffices because every step
    consumes at least one character of the input. -/
def subFuel (al code : List Char) : Nat → List Char → List Char × Nat
  | 0, s => (s, 0)
  | _ + 1, [] => ([], 0)
  | fuel + 1, c :: rest =>
    match matchAt al (c :: rest) with
    | some m =>
      let r := subFuel al code fuel m.rest
      (replacementFor code m ++ r.1, r.2 + 1)
    | none =>
      let r := subFuel al code fuel rest
      (c :: r.1, r.2)

/-- One full `pattern.sub` pass over `s`. -/
def subRule (al code s : List Char) : List Char × Nat :=
  subFuel al code s.length s

/-- `LinkReplacer.replace_links`: empty text is returned unchanged with
    count 0; otherwise the three patterns are applied sequentially to the
    evolving text and the substitution counts are accumulated. -/
def replace_links (code text : List Char) : List Char × Nat :=
  if text.isEmpty then (text, 0)
  else
    let r1 := subRule invitationCodeStr code text
    let r2 := subRule inviteStr code r1.1
    let r3 := subRule refStr code r2.1
    (r3.1, r1.2 + r2.2 + r3.2)

/-! ## The content filter (`ContentFilter`) -/

/-- An attachment, as far as the filter and the router inspect it
    (`file_name` and `file_size` are read with `getattr` defaults). -/
structure Attachment where
  file_name : List Char := []
  file_size : Nat := 0
  file_id : Nat := 0
deriving Repr, DecidableEq

/-- The chat a message arrived from. -/
structure Chat where
  username : Option (List Char) := none
  id : Int := 0
deriving Repr, DecidableEq

/-- An inbound message, restricted to the attributes the router and the
    filter read.  `poll`, `location`, `contact` and `entities` only have
    their truthiness inspected by the code under study. -/
structure Message where
  id : Nat := 0
  chat : Chat := {}
  text : Option (List Char) := none
  caption : Option (List Char) := none
  service : Bool := false
  document : Option Attachment := none
  photo : Option Attachment := none
  video : Option Attachment := none
  animation : Option Attachment := none
  audio : Option Attachment := none
  voice : Option Attachment := none
  sticker : Option Attachment := none
  poll : Bool := false
  location : Bool := false
  contact : Bool := false
  entities : Bool := false
deriving Repr, DecidableEq

/-- Python's `a or b` for an optional string `a`: `None` and the empty
    string are falsy. -/
def pyOr (a : Option (List Char)) (b : List Char) : List Char :=
  match a with
  | some s => if s.isEmpty then b else s
  | none => b

/-- `message.text or message.caption or ""`. -/
def textOrCaption (msg : Message) : List Char :=
  pyOr msg.text (pyOr msg.caption [])

/-- Python's `str.strip()` (ASCII whitespace). -/
def stripStr (s : List Char) : List Char :=
  ((s.dropWhile isSpace).reverse.dropWhile isSpace).reverse

/-- Python's `str.lower()` (ASCII). -/
def lowerStr (s : List Char) : List Char := s.map Char.toLower

/-- The final component of a path (the part after the last `/`),
    as used by `pathlib` to compute the suffix. -/
def lastComponent (s : List Char) : List Char :=
  s.foldl (fun acc c => if c = '/' then [] else acc ++ [c]) []

/-- `Path(name).suffix`: the last dot-suffix of the final component; empty
    when there is no dot, the dot is leading, or the dot is final. -/
def pathSuffix (name : List Char) : List Char :=
  let base := lastComponent name
  if base.contains '.' then
    let afterRev := base.reverse.takeWhile (fun c => !(c = '.'))
    let i := base.length - 1 - afterRev.length
    if 0 < i && !afterRev.isEmpty then '.' :: afterRev.reverse else []
  else []

/-- The filter's configuration surface (`ContentFilter.__init__` and the
    `features.content_filtering` flag). -/
structure FilterConfig where
  content_filtering : Bool := false
  blocked_words : List (List Char) := []
  allowed_file_types : List (List Char) := []
  max_file_size : Nat := 50 * 1024 * 1024
  min_message_length : Nat := 0
deriving Repr, DecidableEq

/-- The reason a message was rejected (or `ok`); each constructor carries
    the data interpolated into the reason string by the source. -/
inductive FilterReason where
  | ok
  | tooShort
  | blockedWord (w : List Char)
  | fileTypeNotAllowed (ext : List Char)
  | fileTooLarge (size : Nat)
deriving Repr, DecidableEq

/-- `ContentFilter.should_process_message`, translated branch by branch. -/
def should_process_message (cfg : FilterConfig) (msg : Message) : Bool × FilterReason :=
  if !cfg.content_filtering then (true, .ok)
  else
    let text := textOrCaption msg
    if (stripStr text).length < cfg.min_message_length then (false, .tooShort)
    else
      let textLower := lowerStr text
      match cfg.blocked_words.find? (fun w => isSubstr (lowerStr w) textLower) with
      | some w => (false, .blockedWord w)
      | none =>
        let extFail : Option (List Char) :=
          match msg.document with
          | some d =>
            if !cfg.allowed_file_types.isEmpty then
              let fext := lowerStr (pathSuffix d.file_name)
              if !fext.isEmpty && !(cfg.allowed_file_types.contains fext) then some fext
              else none
            else none
          | none => none
        match extFail with
        | some fext => (false, .fileTypeNotAllowed fext)
        | none =>
          let fsize :=
            match msg.document with
            | some d => d.file_size
            | none =>
              match msg.photo with
              | some p => p.file_size
              | none =>
                match msg.video with
                | some v => v.file_size
                | none => 0
          if fsize > cfg.max_file_size then (false, .fileTooLarge fsize)
          else (true, .ok)

/-! The spec-side statement of the filter, for the refinement claim C6:
    "apply policy checks in this order, short-circuiting on first failure:
    minimum text length, blocked-word substring match (case-insensitive)
    against text or caption, file-extension allow-list (only enforced when
    an extension-bearing attachment is present and an allow-list is
    configured), maximum attachment size." -/

/-- Spec check 1: minimum text length. -/
def checkMinLength (cfg : FilterConfig) (msg : Message) : Option FilterReason :=
  if (stripStr (textOrCaption msg)).length < cfg.min_message_length then some .tooShort
  else none

/-- Spec check 2: blocked-word substring match, case-insensitive, against
    the event's text or caption. -/
def checkBlockedWord (cfg : FilterConfig) (msg : Message) : Option FilterReason :=
  (cfg.blocked_words.find? fun w =>
      isSubstr (lowerStr w) (lowerStr (textOrCaption msg))).map .blockedWord

/-- Spec check 3: file-extension allow-list, enforced only when an
    extension-bearing document is present and an allow-list is configured. -/
def checkFileType (cfg : FilterConfig) (msg : Message) : Option FilterReason :=
  match msg.document with
  | some d =>
    if !cfg.allowed_file_types.isEmpty then
      let fext := lowerStr (pathSuffix d.file_name)
      if !fext.isEmpty && !(cfg.allowed_file_types.contains fext) then
        some (.fileTypeNotAllowed fext)
      else none
    else none
  | none => none

/-- Spec check 4: maximum attachment size. -/
def checkMaxSize (cfg : FilterConfig) (msg : Message) : Option FilterReason :=
  let fsize :=
    match msg.document with
    | some d => d.file_size
    | none =>
      match msg.photo with
      | some p => p.file_size
      | none =>
        match msg.video with
        | some v => v.file_size
        | none => 0
  if fsize > cfg.max_file_size then some (.fileTooLarge fsize) else none

/-- The spec's ordered, short-circuiting filter policy: the first failing
    check yields the rejection, otherwise the message passes.  (Stated from
    the spec's words, to be compared with `should_process_message`.) -/
def filterPolicySpec (cfg : FilterConfig) (msg : Message) : Bool × FilterReason :=
  if !cfg.content_filtering then (true, .ok)
  else
    match [checkMinLength cfg msg, checkBlockedWord cfg msg,
           checkFileType cfg msg, checkMaxSize cfg msg].findSome? id with
    | some r => (false, r)
    | none => (true, .ok)

/-! ## The retry dispatcher (`_handle_flood_wait`) -/

/-- The outcome of one invocation of the wrapped client operation: a
    successful result, a `FloodWait` signal carrying the required wait in
    seconds, one of the three non-recoverable errors, or any other error. -/
inductive CallResult (α : Type) where
  | ok (val : α)
  | floodWait (seconds : Nat)
  | messageTooLong
  | mediaEmpty
  | fileReferenceExpired
  | otherError
deriving Repr, DecidableEq

/-- The non-recoverable classification
    (`except (MessageTooLong, MediaEmpty, FileReferenceExpired)`). -/
def isNonRecoverable {α : Type} : CallResult α → Bool
  | .messageTooLong => true
  | .mediaEmpty => true
  | .fileReferenceExpired => true
  | _ => false

/-- A suspension performed by the dispatcher: either the flood wait
    `min(e.value * multiplier, 300)` (recording the signalled seconds), or
    the `2 ** attempt` backoff taken after an unclassified error. -/
inductive SleepEvent where
  | flood (waitSeconds : Nat) (duration : ℚ)
  | expBackoff (attempt : Nat) (duration : ℚ)
deriving Repr, DecidableEq

/-- How `_handle_flood_wait` terminates: a normal return (the operation's
    result, or `None` after the non-recoverable `break` or after the loop
    exhausts its attempts), or re-raising the unclassified error from the
    final attempt. -/
inductive DispatchOutcome (α : Type) where
  | returned (val : Option α)
  | raised
deriving Repr, DecidableEq

/-- The observable behaviour of one `_handle_flood_wait` call: how many
    times the operation was invoked, which sleeps were taken, in order, and
    how the call terminated. -/
structure DispatchLog (α : Type) where
  calls : Nat
  sleeps : List SleepEvent
  outcome : DispatchOutcome α
deriving Repr, DecidableEq

/-- The dispatcher's configuration (`delays.retry_attempts`,
    `delays.flood_wait_multiplier`); 1.2 is modelled as `6/5`. -/
structure RetryConfig where
  retry_attempts : Nat := 3
  multiplier : ℚ := 6 / 5
deriving Repr, DecidableEq

/-- One iteration of the `for attempt in range(retry_attempts)` loop of
    `_handle_flood_wait`: return on success; on `FloodWait` sleep
    `min(seconds * multiplier, 300)` and continue (`l` is the log of the
    remaining iterations); on a non-recoverable error `break` (so the
    function returns `None`); on any other error re-raise if this is the
    final attempt (`isLast`), otherwise sleep `2 ** attempt` and continue. -/
def attemptStep {α : Type} (cfg : RetryConfig) (op : Nat → CallResult α)
    (attempt : Nat) (isLast : Bool) (l : DispatchLog α) : DispatchLog α :=
  match op attempt with
  | .ok v => ⟨1, [], .returned (some v)⟩
  | .floodWait secs =>
    ⟨l.calls + 1, .flood secs (min ((secs : ℚ) * cfg.multiplier) 300) :: l.sleeps, l.outcome⟩
  | .messageTooLong => ⟨1, [], .returned none⟩
  | .mediaEmpty => ⟨1, [], .returned none⟩
  | .fileReferenceExpired => ⟨1, [], .returned none⟩
  | .otherError =>
    if isLast then ⟨1, [], .raised⟩
    else ⟨l.calls + 1, .expBackoff attempt ((2 : ℚ) ^ attempt) :: l.sleeps, l.outcome⟩

/-- The retry loop over the list of remaining attempt indices; falling off
    the loop returns `None`. -/
def runAttempts {α : Type} (cfg : RetryConfig) (op : Nat → CallResult α) :
    List Nat → DispatchLog α
  | [] => ⟨0, [], .returned none⟩
  | attempt :: restAttempts =>
    attemptStep cfg op attempt restAttempts.isEmpty (runAttempts cfg op restAttempts)

/-- `_handle_flood_wait`, as a function of the attempt-indexed behaviour of
    the wrapped operation. -/
def handle_flood_wait {α : Type} (cfg : RetryConfig) (op : Nat → CallResult α) :
    DispatchLog α :=
  runAttempts cfg op (List.range cfg.retry_attempts)

/-! ## The message router (`process_message` / `_send_processed_message`) -/

/-- The message object returned by a successful send. -/
structure SentMessage where
  id : Nat := 0
deriving Repr, DecidableEq

/-- One row of the `messages` table
    (`Database.log_message`, with `content[:100]`). -/
structure DbMessageRecord where
  source : List Char
  target : List Char
  source_msg_id : Nat
  target_msg_id : Nat
  msg_type : List Char
  content_preview : List Char
  file_size : Nat
deriving Repr, DecidableEq

/-- One row of the `errors` table (`Database.log_error`): the error type
    tag and the channel it is attributed to. -/
structure DbErrorRecord where
  error_type : List Char
  channel : List Char
deriving Repr, DecidableEq

/-- The router's configuration surface and environment. -/
structure RouterConfig where
  mapping : List (List Char × List Char) := []
  filters : FilterConfig := {}
  retry : RetryConfig := {}
  replace_all_files : Bool := true
  database_enabled : Bool := true
  invitation_code : List Char := defaultInvitationCode
  replacement_file_exists : Bool := false
  replacement_file_size : Nat := 0
deriving Repr, DecidableEq

/-- How a routing attempt ended (for reasoning; the source function itself
    returns `None` in all cases). -/
inductive RouteOutcome where
  | dropped
  | filtered (r : FilterReason)
  | serviceSkipped
  | completed
  | errorHandled
deriving Repr, DecidableEq

/-- Everything observable about one `process_message` call: the outcome,
    the number of invocations of the chosen outbound client operation, the
    database rows written, the contexts passed to
    `send_error_notification`, and the sleeps taken inside the dispatcher. -/
structure RouterEffects where
  outcome : RouteOutcome
  outboundCalls : Nat
  dbMessages : List DbMessageRecord
  dbErrors : List DbErrorRecord
  errorNotificationContexts : List (List Char)
  dispatcherSleeps : List SleepEvent
deriving Repr, DecidableEq

/-- `f"@\x7bmessage.chat.username\x7d" if message.chat.username else str(message.chat.id)`. -/
def sourceChannel (msg : Message) : List Char :=
  match msg.chat.username with
  | some u => if u.isEmpty then (toString msg.chat.id).toList else '@' :: u
  | none => (toString msg.chat.id).toList

/-- `config.get('channels.mapping', \x7b\x7d).get(source_channel)`. -/
def lookupMapping (mp : List (List Char × List Char)) (k : List Char) :
    Option (List Char) :=
  (mp.find? (fun p => p.1 = k)).map Prod.snd

/-- `MessageProcessor._get_message_type`. -/
def get_message_type (msg : Message) : List Char :=
  if msg.photo.isSome then "photo".toList
  else if msg.video.isSome then "video".toList
  else if msg.animation.isSome then "animation".toList
  else if msg.document.isSome then "document".toList
  else if msg.audio.isSome then "audio".toList
  else if msg.voice.isSome then "voice".toList
  else if msg.sticker.isSome then "sticker".toList
  else if msg.poll then "poll".toList
  else if msg.location then "location".toList
  else if msg.contact then "contact".toList
  else "text".toList

/-- `MessageProcessor._get_file_size`. -/
def get_file_size (msg : Message) : Nat :=
  match msg.document with
  | some d => d.file_size
  | none =>
    match msg.photo with
    | some p => p.file_size
    | none =>
      match msg.video with
      | some v => v.file_size
      | none =>
        match msg.audio with
        | some a => a.file_size
        | none =>
          match msg.voice with
          | some v => v.file_size
          | none => 0

/-- Whether `_send_media_message` selects any outbound operation: one send
    per content kind, falling back to `send_message` when the (rewritten)
    text is non-empty, otherwise returning `None` without any client call. -/
def selectsOutbound (msg : Message) (text : List Char) : Bool :=
  msg.photo.isSome || msg.video.isSome || msg.animation.isSome ||
  msg.document.isSome || msg.audio.isSome || msg.voice.isSome ||
  msg.sticker.isSome || msg.poll || msg.location || msg.contact ||
  !text.isEmpty

/-- The tail of `_send_processed_message` and the exception handler of
    `process_message`, given the dispatcher's log for the one outbound call:
    on a propagated (re-raised) error, `process_message` writes the
    `"message_processing"` error row and calls
    `send_error_notification(e, "message processing")`; on a `None` result
    nothing is recorded; on a sent message a `messages` row is written when
    `database.enabled` is set. -/
def finishSend (cfg : RouterConfig) (msg : Message)
    (source target modifiedText msgType : List Char) (fileSize : Nat)
    (log : DispatchLog SentMessage) : RouterEffects :=
  match log.outcome with
  | .raised =>
    ⟨.errorHandled, log.calls, [],
      [⟨"message_processing".toList, source⟩],
      ["message processing".toList], log.sleeps⟩
  | .returned none => ⟨.completed, log.calls, [], [], [], log.sleeps⟩
  | .returned (some sent) =>
    if cfg.database_enabled then
      ⟨.completed, log.calls,
        [⟨source, target, msg.id, sent.id, msgType, modifiedText.take 100, fileSize⟩],
        [], [], log.sleeps⟩
    else ⟨.completed, log.calls, [], [], [], log.sleeps⟩

/-- `MessageProcessor._send_processed_message`: rewrite the text, decide
    attachment substitution, choose the outbound call and dispatch it. -/
def send_processed_message (cfg : RouterConfig) (op : Nat → CallResult SentMessage)
    (msg : Message) (source target : List Char) : RouterEffects :=
  let modified := (replace_links cfg.invitation_code (textOrCaption msg)).1
  let shouldReplaceFile := cfg.replace_all_files &&
    (msg.document.isSome || msg.audio.isSome || msg.voice.isSome)
  if shouldReplaceFile && cfg.replacement_file_exists then
    finishSend cfg msg source target modified "file_replacement".toList
      cfg.replacement_file_size (handle_flood_wait cfg.retry op)
  else if selectsOutbound msg modified then
    finishSend cfg msg source target modified (get_message_type msg)
      (get_file_size msg) (handle_flood_wait cfg.retry op)
  else
    ⟨.completed, 0, [], [], [], []⟩

/-- Whether `_send_processed_message` takes the replacement-file branch
    (`replacement.replace_all_files` is on, the message carries a document,
    audio or voice attachment, and the replacement file exists on disk). -/
def replacesFile (cfg : RouterConfig) (msg : Message) : Bool :=
  (cfg.replace_all_files &&
    (msg.document.isSome || msg.audio.isSome || msg.voice.isSome)) &&
  cfg.replacement_file_exists

/-- Whether `_send_processed_message` dispatches any outbound call at all. -/
def dispatchesOutbound (cfg : RouterConfig) (msg : Message) : Bool :=
  replacesFile cfg msg ||
  selectsOutbound msg (replace_links cfg.invitation_code (textOrCaption msg)).1

/-- The `msg_type` string the router logs for a delivered message. -/
def loggedMsgType (cfg : RouterConfig) (msg : Message) : List Char :=
  if replacesFile cfg msg then "file_replacement".toList else get_message_type msg

/-- The file size the router logs for a delivered message. -/
def loggedFileSize (cfg : RouterConfig) (msg : Message) : Nat :=
  if replacesFile cfg msg then cfg.replacement_file_size else get_file_size msg

/-- `MessageProcessor.process_message`: resolve the target from the channel
    mapping (unmapped → return with no effect), apply the content filter,
    skip service messages, then send.  `op` gives the attempt-indexed
    behaviour of whichever outbound client operation gets chosen. -/
def process_message (cfg : RouterConfig) (op : Nat → CallResult SentMessage)
    (msg : Message) : RouterEffects :=
  let source := sourceChannel msg
  match lookupMapping cfg.mapping source with
  | none => ⟨.dropped, 0, [], [], [], []⟩
  | some target =>
    match should_process_message cfg.filters msg with
    | (false, reason) => ⟨.filtered reason, 0, [], [], [], []⟩
    | (true, _) =>
      if msg.service then ⟨.serviceSkipped, 0, [], [], [], []⟩
      else send_processed_message cfg op msg source target

/-! ## Lemmas about the retry dispatcher -/

theorem runAttempts_nil {α : Type} (cfg : RetryConfig) (op : Nat → CallResult α) :
    runAttempts cfg op [] = ⟨0, [], .returned none⟩ := rfl

theorem runAttempts_cons {α : Type} (cfg : RetryConfig) (op : Nat → CallResult α)
    (a : Nat) (l : List Nat) :
    runAttempts cfg op (a :: l) =
      attemptStep cfg op a l.isEmpty (runAttempts cfg op l) := rfl

theorem attemptStep_ok {α : Type} {cfg : RetryConfig} {op : Nat → CallResult α}
    {a : Nat} {v : α} (h : op a = .ok v) (b : Bool) (l : DispatchLog α) :
    attemptStep cfg op a b l = ⟨1, [], .returned (some v)⟩ := by
  simp [attemptStep, h]

theorem attemptStep_flood {α : Type} {cfg : RetryConfig} {op : Nat → CallResult α}
    {a s : Nat} (h : op a = .floodWait s) (b : Bool) (l : DispatchLog α) :
    attemptStep cfg op a b l =
      ⟨l.calls + 1, .flood s (min ((s : ℚ) * cfg.multiplier) 300) :: l.sleeps, l.outcome⟩ := by
  simp [attemptStep, h]

theorem attemptStep_nonrec {α : Type} {cfg : RetryConfig} {op : Nat → CallResult α}
    {a : Nat} (h : isNonRecoverable (op a) = true) (b : Bool) (l : DispatchLog α) :
    attemptStep cfg op a b l = ⟨1, [], .returned none⟩ := by
  cases ha : op a <;> rw [ha] at h <;> simp [isNonRecoverable] at h <;>
    simp [attemptStep, ha]

theorem attemptStep_other_last {α : Type} {cfg : RetryConfig} {op : Nat → CallResult α}
    {a : Nat} (h : op a = .otherError) (l : DispatchLog α) :
    attemptStep cfg op a true l = ⟨1, [], .raised⟩ := by
  simp [attemptStep, h]

theorem attemptStep_other_mid {α : Type} {cfg : RetryConfig} {op : Nat → CallResult α}
    {a : Nat} (h : op a = .otherError) (l : DispatchLog α) :
    attemptStep cfg op a false l =
      ⟨l.calls + 1, .expBackoff a ((2 : ℚ) ^ a) :: l.sleeps, l.outcome⟩ := by
  simp [attemptStep, h]

theorem runAttempts_calls_le {α : Type} (cfg : RetryConfig) (op : Nat → CallResult α) :
    ∀ l : List Nat, (runAttempts cfg op l).calls ≤ l.length := by
  intro l
  induction l with
  | nil => simp [runAttempts_nil]
  | cons a rest ih =>
    rw [runAttempts_cons]
    cases ha : op a with
    | ok v => rw [attemptStep_ok ha]; simp
    | floodWait s => rw [attemptStep_flood ha]; simp only [List.length_cons]; omega
    | messageTooLong =>
      rw [attemptStep_nonrec (by rw [ha]; rfl)]; simp
    | mediaEmpty =>
      rw [attemptStep_nonrec (by rw [ha]; rfl)]; simp
    | fileReferenceExpired =>
      rw [attemptStep_nonrec (by rw [ha]; rfl)]; simp
    | otherError =>
      cases hb : rest.isEmpty with
      | true => rw [attemptStep_other_last ha]; simp
      | false => rw [attemptStep_other_mid ha]; simp only [List.length_cons]; omega

theorem runAttempts_flood_sleep {α : Type} (cfg : RetryConfig) (op : Nat → CallResult α) :
    ∀ (l : List Nat) (w : Nat) (d : ℚ),
      SleepEvent.flood w d ∈ (runAttempts cfg op l).sleeps →
      d = min ((w : ℚ) * cfg.multiplier) 300 := by
  intro l
  induction l with
  | nil => intro w d h; simp [runAttempts_nil] at h
  | cons a rest ih =>
    intro w d h
    rw [runAttempts_cons] at h
    cases ha : op a with
    | ok v => rw [attemptStep_ok ha] at h; simp at h
    | floodWait s =>
      rw [attemptStep_flood ha] at h
      simp only [List.mem_cons] at h
      rcases h with h | h
      · cases h; rfl
      · exact ih w d h
    | messageTooLong => rw [attemptStep_nonrec (by rw [ha]; rfl)] at h; simp at h
    | mediaEmpty => rw [attemptStep_nonrec (by rw [ha]; rfl)] at h; simp at h
    | fileReferenceExpired => rw [attemptStep_nonrec (by rw [ha]; rfl)] at h; simp at h
    | otherError =>
      cases hb : rest.isEmpty with
      | true => rw [hb, attemptStep_other_last ha] at h; simp at h
      | false =>
        rw [hb, attemptStep_other_mid ha] at h
        simp only [List.mem_cons] at h
        rcases h with h | h
        · cases h
        · exact ih w d h

theorem runAttempts_nonrec_calls {α : Type} (cfg : RetryConfig) (op : Nat → CallResult α) :
    ∀ n a i : Nat, a ≤ i → i < a + n → isNonRecoverable (op i) = true →
      (runAttempts cfg op (List.range' a n)).calls ≤ i + 1 - a := by
  intro n
  induction n with
  | zero => intro a i h1 h2 _; omega
  | succ n ih =>
    intro a i h1 h2 h3
    rw [List.range'_succ, runAttempts_cons]
    cases ha : op a with
    | ok v => rw [attemptStep_ok ha]; simp only; omega
    | floodWait s =>
      have hne : i ≠ a := by
        intro e; rw [e, ha] at h3; simp [isNonRecoverable] at h3
      have hih := ih (a + 1) i (by omega) (by omega) h3
      rw [attemptStep_flood ha]
      simp only
      omega
    | messageTooLong => rw [attemptStep_nonrec (by rw [ha]; rfl)]; simp only; omega
    | mediaEmpty => rw [attemptStep_nonrec (by rw [ha]; rfl)]; simp only; omega
    | fileReferenceExpired => rw [attemptStep_nonrec (by rw [ha]; rfl)]; simp only; omega
    | otherError =>
      have hne : i ≠ a := by
        intro e; rw [e, ha] at h3; simp [isNonRecoverable] at h3
      have hih := ih (a + 1) i (by omega) (by omega) h3
      cases hb : (List.range' (a + 1) n).isEmpty with
      | true => rw [attemptStep_other_last ha]; simp only; omega
      | false => rw [attemptStep_other_mid ha]; simp only; omega

theorem runAttempts_all_other {α : Type} (cfg : RetryConfig) (op : Nat → CallResult α)
    (hop : ∀ i, op i = .otherError) :
    ∀ n a : Nat, runAttempts cfg op (List.range' a (n + 1)) =
      ⟨n + 1, (List.range' a n).map (fun i => SleepEvent.expBackoff i ((2 : ℚ) ^ i)),
       .raised⟩ := by
  intro n
  induction n with
  | zero =>
    intro a
    rw [List.range'_succ, runAttempts_cons]
    rw [show (List.range' (a + 1) 0).isEmpty = true from rfl]
    rw [attemptStep_other_last (hop a)]
    rfl
  | succ n ih =>
    intro a
    rw [List.range'_succ, runAttempts_cons]
    rw [show (List.range' (a + 1) (n + 1)).isEmpty = false by rw [List.range'_succ]; rfl]
    rw [attemptStep_other_mid (hop a), ih (a + 1)]
    rw [show List.range' a (n + 1) = a :: List.range' (a + 1) n from List.range'_succ a n 1]
    simp

/-! ## Claim theorems about the retry dispatcher -/

/-- C1, counterexample.  The spec calls the unclassified-error branch a
    passthrough-stop: "logged, loop exits without exhausting configured
    attempts", "no further invocation of the operation occurs after the
    first unclassified error", and the caller receives a silent no-result.
    With the default configuration and an operation that always raises an
    unclassified error, `_handle_flood_wait` in fact invokes the operation
    3 times (not 1), sleeps `2 ** attempt` between attempts, and ends by
    re-raising the error (not a silent `None`). -/
theorem unclassified_not_passthrough_cx :
    handle_flood_wait ({} : RetryConfig) (fun _ => (CallResult.otherError : CallResult Unit)) =
      ⟨3, [.expBackoff 0 1, .expBackoff 1 2], .raised⟩ ∧
    (3 : Nat) ≠ 1 ∧
    (DispatchOutcome.raised : DispatchOutcome Unit) ≠ .returned none := by
  refine ⟨by decide, by decide, by decide⟩

/-- C1, amended.  An operation that keeps raising unclassified errors is
    retried: the dispatcher performs all `retry_attempts` invocations,
    sleeping `2 ** attempt` seconds after each non-final attempt, and
    re-raises the error from the final attempt to the caller (so the
    caller sees a propagated exception, not a silent no-result). -/
theorem unclassified_error_retried_with_backoff {α : Type} (cfg : RetryConfig)
    (op : Nat → CallResult α) (hop : ∀ i, op i = .otherError)
    (h1 : 1 ≤ cfg.retry_attempts) :
    handle_flood_wait cfg op =
      ⟨cfg.retry_attempts,
       (List.range (cfg.retry_attempts - 1)).map
         (fun i => SleepEvent.expBackoff i ((2 : ℚ) ^ i)),
       .raised⟩ := by
  obtain ⟨n, hn⟩ : ∃ n, cfg.retry_attempts = n + 1 :=
    ⟨cfg.retry_attempts - 1, by omega⟩
  rw [handle_flood_wait, hn, List.range_eq_range']
  rw [runAttempts_all_other cfg op hop n 0]
  have : n + 1 - 1 = n := by omega
  rw [this, List.range_eq_range']

/-- C1, witness for the amended theorem at the default configuration. -/
theorem unclassified_error_retried_witness :
    handle_flood_wait ({} : RetryConfig) (fun _ => (CallResult.otherError : CallResult Unit)) =
      ⟨({} : RetryConfig).retry_attempts,
       (List.range (({} : RetryConfig).retry_attempts - 1)).map
         (fun i => SleepEvent.expBackoff i ((2 : ℚ) ^ i)),
       .raised⟩ :=
  unclassified_error_retried_with_backoff {} _ (fun _ => rfl) (by decide)

/-- C5.  Invariants of `_handle_flood_wait`: the wrapped operation is
    invoked at most `retry_attempts` times; every flood wait equals
    `min(wait_seconds * multiplier, 300)` and hence never exceeds 300
    seconds; and once attempt `i` is classified non-recoverable, no later
    invocation occurs (the total number of calls is at most `i + 1`). -/
theorem dispatcher_invariants {α : Type} (cfg : RetryConfig) (op : Nat → CallResult α) :
    (handle_flood_wait cfg op).calls ≤ cfg.retry_attempts ∧
    (∀ (w : Nat) (d : ℚ), SleepEvent.flood w d ∈ (handle_flood_wait cfg op).sleeps →
      d = min ((w : ℚ) * cfg.multiplier) 300 ∧ d ≤ 300) ∧
    (∀ i, isNonRecoverable (op i) = true →
      (handle_flood_wait cfg op).calls ≤ i + 1) := by
  refine ⟨?_, ?_, ?_⟩
  · have := runAttempts_calls_le cfg op (List.range cfg.retry_attempts)
    simpa [handle_flood_wait] using this
  · intro w d h
    have hd := runAttempts_flood_sleep cfg op (List.range cfg.retry_attempts) w d h
    exact ⟨hd, by rw [hd]; exact min_le_right _ _⟩
  · intro i h2
    by_cases hi : i < cfg.retry_attempts
    · have := runAttempts_nonrec_calls cfg op cfg.retry_attempts 0 i
        (Nat.zero_le i) (by omega) h2
      rw [handle_flood_wait, List.range_eq_range']
      omega
    · have := runAttempts_calls_le cfg op (List.range cfg.retry_attempts)
      simp only [handle_flood_wait]
      simp only [List.length_range] at this
      omega

/-- C5, witness: the invariants instantiated at the default configuration,
    at the flood-then-success operation from the spec's test scenario (the
    12-second wait equals `min(10 * 1.2, 300)`), and at a first-call
    non-recoverable operation. -/
theorem dispatcher_invariants_witness :
    (handle_flood_wait ({} : RetryConfig)
        (fun n => if n < 2 then CallResult.floodWait 10 else .ok ())).calls ≤ 3 ∧
    (min ((10 : ℚ) * ({} : RetryConfig).multiplier) 300 =
        min ((10 : ℚ) * ({} : RetryConfig).multiplier) 300 ∧
      min ((10 : ℚ) * ({} : RetryConfig).multiplier) 300 ≤ 300) ∧
    (handle_flood_wait ({} : RetryConfig)
        (fun _ => (CallResult.messageTooLong : CallResult Unit))).calls ≤ 0 + 1 :=
  ⟨(dispatcher_invariants ({} : RetryConfig)
      (fun n => if n < 2 then CallResult.floodWait 10 else .ok ())).1,
   (dispatcher_invariants ({} : RetryConfig)
      (fun n => if n < 2 then CallResult.floodWait 10 else .ok ())).2.1 10
      (min ((10 : ℚ) * ({} : RetryConfig).multiplier) 300)
      (by
        rw [show (handle_flood_wait ({} : RetryConfig)
            (fun n => if n < 2 then CallResult.floodWait 10 else .ok ())).sleeps =
          [SleepEvent.flood 10 (min ((10 : ℚ) * ({} : RetryConfig).multiplier) 300),
           SleepEvent.flood 10 (min ((10 : ℚ) * ({} : RetryConfig).multiplier) 300)]
          from rfl]
        exact List.mem_cons_self _ _),
   (dispatcher_invariants ({} : RetryConfig)
      (fun _ => (CallResult.messageTooLong : CallResult Unit))).2.2 0 (by decide)⟩

/-- C8.  An operation whose first invocation raises one of the three
    non-recoverable errors is invoked exactly once: the dispatcher breaks
    out of its loop with no sleeps and returns `None` (terminal failure). -/
theorem nonrecoverable_first_call {α : Type} (cfg : RetryConfig)
    (op : Nat → CallResult α) (h1 : 1 ≤ cfg.retry_attempts)
    (h2 : isNonRecoverable (op 0) = true) :
    handle_flood_wait cfg op = ⟨1, [], .returned none⟩ := by
  obtain ⟨n, hn⟩ : ∃ n, cfg.retry_attempts = n + 1 :=
    ⟨cfg.retry_attempts - 1, by omega⟩
  rw [handle_flood_wait, hn, List.range_eq_range', List.range'_succ]
  cases h : op 0 with
  | ok v => rw [h] at h2; simp [isNonRecoverable] at h2
  | floodWait s => rw [h] at h2; simp [isNonRecoverable] at h2
  | otherError => rw [h] at h2; simp [isNonRecoverable] at h2
  | messageTooLong => exact attemptStep_nonrec (by rw [h]; rfl) _ _
  | mediaEmpty => exact attemptStep_nonrec (by rw [h]; rfl) _ _
  | fileReferenceExpired => exact attemptStep_nonrec (by rw [h]; rfl) _ _

/-- C8, witness: a first-call `MessageTooLong` under the default
    configuration. -/
theorem nonrecoverable_first_call_witness :
    handle_flood_wait ({} : RetryConfig)
      (fun _ => (CallResult.messageTooLong : CallResult Unit)) =
      ⟨1, [], .returned none⟩ :=
  nonrecoverable_first_call {} _ (by decide) (by decide)

/-! ## Claim theorems about the router and the filter -/

/-- C7.  An event whose source channel has no entry in the configured
    channel mapping is dropped: no outbound call, no message row, no error
    row, no notification, no sleep. -/
theorem unmapped_source_dropped (cfg : RouterConfig)
    (op : Nat → CallResult SentMessage) (msg : Message)
    (h : lookupMapping cfg.mapping (sourceChannel msg) = none) :
    process_message cfg op msg = ⟨.dropped, 0, [], [], [], []⟩ := by
  simp [process_message, h]

/-- C7, witness: a message from `@other` with only `@src` mapped. -/
theorem unmapped_source_dropped_witness :
    process_message { mapping := [("@src".toList, "@tgt".toList)] }
      (fun _ => CallResult.ok ⟨7⟩)
      { id := 1, chat := { username := some "other".toList } } =
      ⟨.dropped, 0, [], [], [], []⟩ :=
  unmapped_source_dropped _ _ _ (by decide)

/-- C10.  The extension allow-list check only ever fires for document
    attachments, and the size check only reads document/photo/video sizes:
    a message with no document is never rejected for its file type, and a
    message with no document, photo or video attachment is never rejected
    for its size, whatever its audio or voice attachments weigh. -/
theorem ext_check_documents_only (cfg : FilterConfig) (msg : Message)
    (hd : msg.document = none) :
    (∀ e, (should_process_message cfg msg).2 ≠ .fileTypeNotAllowed e) ∧
    (msg.photo = none → msg.video = none →
      ∀ s, (should_process_message cfg msg).2 ≠ .fileTooLarge s) := by
  constructor
  · intro e
    simp only [should_process_message, hd]
    split
    · simp
    · split
      · simp
      · split
        · simp
        · split
          · simp
          · simp
  · intro hp hv s
    simp only [should_process_message, hd, hp, hv]
    split
    · simp
    · split
      · simp
      · split
        · simp
        · split
          · omega
          · simp

/-- C10, witness: a 10-GiB voice note passes the size check under default
    filter limits with filtering enabled. -/
theorem ext_check_documents_only_witness :
    (∀ e, (should_process_message { content_filtering := true }
      { voice := some { file_size := 10737418240 } }).2 ≠ .fileTypeNotAllowed e) ∧
    (∀ s, (should_process_message { content_filtering := true }
      { voice := some { file_size := 10737418240 } }).2 ≠ .fileTooLarge s) :=
  ⟨(ext_check_documents_only { content_filtering := true }
      { voice := some { file_size := 10737418240 } } rfl).1,
   (ext_check_documents_only { content_filtering := true }
      { voice := some { file_size := 10737418240 } } rfl).2 rfl rfl⟩

/-- C2, counterexample.  The claim says every terminal outbound failure is
    recorded as an error with context "message processing" and surfaced to
    the notification collaborator.  For a routed text message whose send
    raises the non-recoverable `MessageTooLong` on the first attempt, the
    dispatcher returns `None`, `_send_processed_message` silently skips
    logging, and no error row and no notification is produced. -/
theorem terminal_failure_not_recorded_cx :
    process_message { mapping := [("@src".toList, "@tgt".toList)] }
        (fun _ => CallResult.messageTooLong)
        { id := 5, chat := { username := some "src".toList },
          text := some "hello".toList } =
      ⟨.completed, 1, [], [], [], []⟩ ∧
    (process_message { mapping := [("@src".toList, "@tgt".toList)] }
        (fun _ => CallResult.messageTooLong)
        { id := 5, chat := { username := some "src".toList },
          text := some "hello".toList }).dbErrors = [] ∧
    (process_message { mapping := [("@src".toList, "@tgt".toList)] }
        (fun _ => CallResult.messageTooLong)
        { id := 5, chat := { username := some "src".toList },
          text := some "hello".toList }).errorNotificationContexts = [] := by
  refine ⟨by decide, by decide, by decide⟩

/-- C2, amended.  For a routed event that dispatches an outbound call:
    only a re-raised (unclassified, final-attempt) error is recorded — as a
    `"message_processing"` error row and a "message processing"
    notification; a `None` dispatcher result (non-recoverable error or
    exhausted flood-wait attempts) produces no record at all; a successful
    send is logged with source, target, both message ids, content kind and
    size when database logging is enabled. -/
theorem routed_outcome_recording (cfg : RouterConfig)
    (op : Nat → CallResult SentMessage) (msg : Message) (target : List Char)
    (h1 : lookupMapping cfg.mapping (sourceChannel msg) = some target)
    (h2 : (should_process_message cfg.filters msg).1 = true)
    (h3 : msg.service = false)
    (h4 : dispatchesOutbound cfg msg = true) :
    ((handle_flood_wait cfg.retry op).outcome = .raised →
      (process_message cfg op msg).dbErrors =
        [⟨"message_processing".toList, sourceChannel msg⟩] ∧
      (process_message cfg op msg).errorNotificationContexts =
        ["message processing".toList] ∧
      (process_message cfg op msg).dbMessages = []) ∧
    ((handle_flood_wait cfg.retry op).outcome = .returned none →
      (process_message cfg op msg).dbErrors = [] ∧
      (process_message cfg op msg).errorNotificationContexts = [] ∧
      (process_message cfg op msg).dbMessages = []) ∧
    (∀ sent : SentMessage,
      (handle_flood_wait cfg.retry op).outcome = .returned (some sent) →
      cfg.database_enabled = true →
      (process_message cfg op msg).dbMessages =
        [⟨sourceChannel msg, target, msg.id, sent.id, loggedMsgType cfg msg,
          ((replace_links cfg.invitation_code (textOrCaption msg)).1).take 100,
          loggedFileSize cfg msg⟩] ∧
      (process_message cfg op msg).dbErrors = [] ∧
      (process_message cfg op msg).errorNotificationContexts = []) := by
  have hpm : process_message cfg op msg =
      send_processed_message cfg op msg (sourceChannel msg) target := by
    rw [process_message]
    rw [h1]
    rcases hsp : should_process_message cfg.filters msg with ⟨b, r⟩
    rw [hsp] at h2
    simp only at h2
    subst h2
    simp [h3]
  rw [hpm, send_processed_message]
  by_cases hbr : replacesFile cfg msg = true
  · rw [if_pos (by simpa [replacesFile] using hbr)]
    refine ⟨?_, ?_, ?_⟩
    · intro ho; simp [finishSend, ho]
    · intro ho; simp [finishSend, ho]
    · intro sent ho hdb
      simp [finishSend, ho, hdb, loggedMsgType, loggedFileSize, hbr]
  · have hbr' : replacesFile cfg msg = false := by simpa using hbr
    have hsel : selectsOutbound msg
        (replace_links cfg.invitation_code (textOrCaption msg)).1 = true := by
      rcases Bool.or_eq_true_iff.1 (by simpa [dispatchesOutbound] using h4) with h | h
      · exact absurd h hbr
      · exact h
    rw [if_neg (by simpa [replacesFile] using hbr), if_pos hsel]
    refine ⟨?_, ?_, ?_⟩
    · intro ho; simp [finishSend, ho]
    · intro ho; simp [finishSend, ho]
    · intro sent ho hdb
      simp [finishSend, ho, hdb, loggedMsgType, loggedFileSize, hbr']

/-- C2, witness for the amended theorem: a delivered text message is logged
    with both ids, kind `text` and size 0. -/
theorem routed_outcome_recording_witness :
    (process_message { mapping := [("@src".toList, "@tgt".toList)] }
        (fun _ => CallResult.ok ⟨77⟩)
        { id := 5, chat := { username := some "src".toList },
          text := some "hello".toList }).dbMessages =
      [⟨"@src".toList, "@tgt".toList, 5, 77, "text".toList, "hello".toList, 0⟩] := by
  have h := routed_outcome_recording
    { mapping := [("@src".toList, "@tgt".toList)] }
    (fun _ => CallResult.ok ⟨77⟩)
    { id := 5, chat := { username := some "src".toList }, text := some "hello".toList }
    "@tgt".toList (by decide) (by decide) rfl (by decide)
  have h2 := (h.2.2 ⟨77⟩ (by decide) rfl).1
  exact h2.trans (by decide)

/-! ## The filter implements the spec's ordered checks -/

theorem should_process_eq_spec (cfg : FilterConfig) (msg : Message) :
    should_process_message cfg msg = filterPolicySpec cfg msg := by
  cases hcf : cfg.content_filtering with
  | false => simp [should_process_message, filterPolicySpec, hcf]
  | true =>
    rw [should_process_message, filterPolicySpec, hcf]
    simp only [Bool.not_true, Bool.false_eq_true, if_false]
    by_cases hlen : (stripStr (textOrCaption msg)).length < cfg.min_message_length
    · have h1 : checkMinLength cfg msg = some .tooShort := by
        simp [checkMinLength, hlen]
      rw [if_pos hlen]
      simp [List.findSome?, h1]
    · have h1 : checkMinLength cfg msg = none := by
        simp [checkMinLength, hlen]
      rw [if_neg hlen]
      cases hw : cfg.blocked_words.find?
          (fun w => isSubstr (lowerStr w) (lowerStr (textOrCaption msg))) with
      | some w =>
        have h2 : checkBlockedWord cfg msg = some (.blockedWord w) := by
          simp [checkBlockedWord, hw]
        simp [List.findSome?, h1, h2, hw]
      | none =>
        have h2 : checkBlockedWord cfg msg = none := by
          simp [checkBlockedWord, hw]
        simp only [hw, List.findSome?, h1, h2, id]
        rcases hd : msg.document with _ | d
        · have h3 : checkFileType cfg msg = none := by simp [checkFileType, hd]
          simp only [h3, List.findSome?, id, checkMaxSize, hd]
          rcases hp : msg.photo with _ | p
          · rcases hv : msg.video with _ | v
            · simp
            · by_cases hsz : v.file_size > cfg.max_file_size
              · simp [hsz]
              · simp [hsz]
          · by_cases hsz : p.file_size > cfg.max_file_size
            · simp [hsz]
            · simp [hsz]
        · by_cases hat : cfg.allowed_file_types.isEmpty
          · have h3 : checkFileType cfg msg = none := by
              simp only [checkFileType, hd]
              rw [if_neg (by simp [hat])]
            simp only [h3, List.findSome?, id, checkMaxSize, hd]
            rw [if_neg (by simp [hat])]
            by_cases hsz : d.file_size > cfg.max_file_size
            · simp [hsz]
            · simp [hsz]
          · have hat' : cfg.allowed_file_types.isEmpty = false := by simpa using hat
            by_cases hfe : (!(lowerStr (pathSuffix d.file_name)).isEmpty &&
                !(cfg.allowed_file_types.contains (lowerStr (pathSuffix d.file_name)))) = true
            · have h3 : checkFileType cfg msg =
                  some (.fileTypeNotAllowed (lowerStr (pathSuffix d.file_name))) := by
                simp only [checkFileType, hd, hat', Bool.not_false, if_true, hfe]
              simp only [h3, List.findSome?, id, hat', Bool.not_false, if_true, hfe]
            · have hfe' := hfe
              rw [Bool.not_eq_true] at hfe'
              have h3 : checkFileType cfg msg = none := by
                simp only [checkFileType, hd, hat', Bool.not_false, if_true, hfe']
                simp
              simp only [h3, List.findSome?, id, checkMaxSize, hd, hat',
                Bool.not_false, if_true, hfe']
              simp only [Bool.false_eq_true, if_false]
              by_cases hsz : d.file_size > cfg.max_file_size
              · simp [hsz]
              · simp [hsz]

/-- A blocked word in the caption of a text-less routed event makes the
    router return a `Filtered` outcome with no effects at all. -/
theorem caption_blocked_filtered (cfg : RouterConfig)
    (op : Nat → CallResult SentMessage) (msg : Message)
    (target cap w : List Char)
    (h1 : lookupMapping cfg.mapping (sourceChannel msg) = some target)
    (hcf : cfg.filters.content_filtering = true)
    (htext : msg.text = none) (hcap : msg.caption = some cap) (hne : cap ≠ [])
    (hw : w ∈ cfg.filters.blocked_words)
    (hsub : isSubstr (lowerStr w) (lowerStr cap) = true) :
    ∃ r, process_message cfg op msg = ⟨.filtered r, 0, [], [], [], []⟩ := by
  have htc : textOrCaption msg = cap := by
    simp [textOrCaption, pyOr, htext, hcap, hne]
  by_cases hlen :
      (stripStr (textOrCaption msg)).length < cfg.filters.min_message_length
  · refine ⟨.tooShort, ?_⟩
    have hsp : should_process_message cfg.filters msg = (false, .tooShort) := by
      rw [should_process_message, hcf]
      simp only [Bool.not_true, Bool.false_eq_true, if_false]
      rw [if_pos hlen]
    rw [process_message, h1, hsp]
  · have hfind : (cfg.filters.blocked_words.find?
        (fun x => isSubstr (lowerStr x) (lowerStr (textOrCaption msg)))).isSome := by
      refine List.find?_isSome.2 ⟨w, hw, ?_⟩
      rw [htc]
      exact hsub
    obtain ⟨w', hw'⟩ := Option.isSome_iff_exists.1 hfind
    refine ⟨.blockedWord w', ?_⟩
    have hsp : should_process_message cfg.filters msg = (false, .blockedWord w') := by
      rw [should_process_message, hcf]
      simp only [Bool.not_true, Bool.false_eq_true, if_false]
      rw [if_neg hlen, hw']
    rw [process_message, h1, hsp]

/-- C6.  With content filtering enabled the checks run in the fixed order
    minimum-text-length, blocked word, extension allow-list, maximum size,
    short-circuiting on the first failure (`should_process_message` agrees
    everywhere with the spec's ordered policy `filterPolicySpec`); and a
    routed text-less event whose caption contains a blocked word is
    `Filtered` with zero outbound calls and zero persistence writes. -/
theorem filter_order_and_caption_block (cfg : RouterConfig)
    (op : Nat → CallResult SentMessage) (msg : Message)
    (target cap w : List Char)
    (h1 : lookupMapping cfg.mapping (sourceChannel msg) = some target)
    (hcf : cfg.filters.content_filtering = true)
    (htext : msg.text = none) (hcap : msg.caption = some cap) (hne : cap ≠ [])
    (hw : w ∈ cfg.filters.blocked_words)
    (hsub : isSubstr (lowerStr w) (lowerStr cap) = true) :
    (∀ (fcfg : FilterConfig) (m : Message),
      should_process_message fcfg m = filterPolicySpec fcfg m) ∧
    (∃ r, process_message cfg op msg = ⟨.filtered r, 0, [], [], [], []⟩) :=
  ⟨should_process_eq_spec,
   caption_blocked_filtered cfg op msg target cap w h1 hcf htext hcap hne hw hsub⟩

/-- C6, witness: a photo with caption "big scam here" against blocked word
    "SCAM". -/
theorem filter_order_and_caption_block_witness :
    (∃ r, process_message
      { mapping := [("@src".toList, "@tgt".toList)],
        filters := { content_filtering := true,
                     blocked_words := ["SCAM".toList] } }
      (fun _ => CallResult.ok ⟨1⟩)
      { id := 6, chat := { username := some "src".toList },
        photo := some { file_size := 10 },
        caption := some "big scam here".toList } =
      ⟨.filtered r, 0, [], [], [], []⟩) :=
  (filter_order_and_caption_block
    { mapping := [("@src".toList, "@tgt".toList)],
      filters := { content_filtering := true,
                   blocked_words := ["SCAM".toList] } }
    (fun _ => CallResult.ok ⟨1⟩)
    { id := 6, chat := { username := some "src".toList },
      photo := some { file_size := 10 },
      caption := some "big scam here".toList }
    "@tgt".toList "big scam here".toList "SCAM".toList
    (by decide) rfl rfl rfl (by decide) (by decide) (by decide)).2

/-! ## Lemmas about the string utilities -/

theorem lowerEq_self (c : Char) : lowerEq c c = true := by
  simp [lowerEq]

theorem startsWithCI_length :
    ∀ p s : List Char, startsWithCI p s = true → p.length ≤ s.length := by
  intro p
  induction p with
  | nil => intro s _; simp
  | cons a p ih =>
    intro s h
    cases s with
    | nil => simp [startsWithCI] at h
    | cons b s =>
      simp only [startsWithCI, Bool.and_eq_true] at h
      have := ih s h.2
      simp only [List.length_cons]
      omega

theorem startsWithCI_self_append (p z : List Char) :
    startsWithCI p (p ++ z) = true := by
  induction p with
  | nil => rfl
  | cons a p ih => simp [startsWithCI, lowerEq_self, ih]

theorem startsWithCI_take :
    ∀ p s : List Char, startsWithCI p s = true →
      startsWithCI p (s.take p.length) = true := by
  intro p
  induction p with
  | nil => intro s _; rfl
  | cons a p ih =>
    intro s h
    cases s with
    | nil => simp [startsWithCI] at h
    | cons b s =>
      simp only [startsWithCI, Bool.and_eq_true] at h
      simp only [List.length_cons, List.take_succ_cons, startsWithCI,
        Bool.and_eq_true]
      exact ⟨h.1, ih s h.2⟩

theorem isSubstr_of_isPrefixOf {n s : List Char} (h : n.isPrefixOf s = true) :
    isSubstr n s = true := by
  cases s with
  | nil =>
    have : n = [] := by
      have := List.isPrefixOf_iff_prefix.1 h
      simpa using List.prefix_nil.1 this
    simp [isSubstr, this]
  | cons c rest => simp [isSubstr, h]

theorem isSubstr_cons_of {n s : List Char} (c : Char) (h : isSubstr n s = true) :
    isSubstr n (c :: s) = true := by
  simp [isSubstr, h]

theorem isSubstr_append_of {n s : List Char} (t : List Char)
    (h : isSubstr n s = true) : isSubstr n (t ++ s) = true := by
  induction t with
  | nil => simpa
  | cons c t ih => simpa using isSubstr_cons_of c ih

theorem isSubstr_middle (a n b : List Char) : isSubstr n (a ++ (n ++ b)) = true :=
  isSubstr_append_of a
    (isSubstr_of_isPrefixOf (List.isPrefixOf_iff_prefix.2 (List.prefix_append n b)))

/-! ## Lemmas about `_extract_param_name` -/

theorem extract_param_name_mem (x : List Char) :
    extract_param_name x ∈ ruleAliases := by
  rw [extract_param_name]
  split
  · simp [ruleAliases]
  · split
    · simp [ruleAliases]
    · split
      · simp [ruleAliases]
      · simp [ruleAliases]

theorem extract_param_name_invitation {x : List Char}
    (h : isSubstr invitationCodeStr x = true) :
    extract_param_name x = invitationCodeStr := by
  simp [extract_param_name, h]

theorem extract_param_name_invite {x : List Char}
    (h1 : isSubstr invitationCodeStr x = false) (h2 : isSubstr inviteStr x = true) :
    extract_param_name x = inviteStr := by
  simp [extract_param_name, h1, h2]

theorem extract_param_name_ref {x : List Char}
    (h1 : isSubstr invitationCodeStr x = false) (h2 : isSubstr inviteStr x = false)
    (h3 : isSubstr refStr x = true) :
    extract_param_name x = refStr := by
  simp [extract_param_name, h1, h2, h3]

/-! ## Decomposition lemmas for the pattern matcher -/

theorem scanParam_eq {al : List Char} :
    ∀ {l pre after : List Char} {sep : Char} {nm : List Char},
      scanParam al l = some (pre, sep, nm, after) →
      l = pre ++ sep :: (nm ++ '=' :: after) ∧
      (∀ c ∈ pre, isUrlChar c = true) ∧ (sep = '?' ∨ sep = '&') ∧
      startsWithCI al nm = true ∧ nm.length = al.length := by
  intro l
  induction l with
  | nil => intro pre after sep nm h; simp [scanParam] at h
  | cons c rest ih =>
    intro pre after sep nm h
    rw [scanParam] at h
    split at h
    case isTrue hcond =>
      simp only [Option.some.injEq, Prod.mk.injEq] at h
      obtain ⟨hpre, hsep, hnm, hafter⟩ := h
      simp only [Bool.and_eq_true, Bool.or_eq_true, decide_eq_true_eq] at hcond
      obtain ⟨⟨hc, hsw⟩, hdrop⟩ := hcond
      rcases hdl : rest.drop al.length with _ | ⟨x, xs⟩
      · rw [hdl] at hdrop; simp at hdrop
      · rw [hdl] at hdrop
        have hx : x = '=' := by simpa using hdrop
        have hlen : al.length ≤ rest.length := startsWithCI_length al rest hsw
        have hsplit : rest = rest.take al.length ++ '=' :: xs := by
          conv_lhs => rw [← List.take_append_drop al.length rest]
          rw [hdl, hx]
        subst hpre hsep hnm hafter
        refine ⟨?_, by simp, hc, startsWithCI_take al rest hsw, ?_⟩
        · simp only [List.nil_append]
          rw [hdl, hx]
          simp only [List.tail_cons]
          exact congrArg (c :: ·) hsplit
        · simp [List.length_take]
          omega
    case isFalse hcond =>
      split at h
      case isTrue hurl =>
        rcases hs : scanParam al rest with _ | ⟨⟨pre', sep', nm', after'⟩⟩
        · rw [hs] at h; simp at h
        · rw [hs] at h
          simp only [Option.some.injEq, Prod.mk.injEq] at h
          obtain ⟨hpre, hsep, hnm, hafter⟩ := h
          obtain ⟨heq, hurl', hsep', hsw', hlen'⟩ := ih hs
          subst hpre hsep hnm hafter
          refine ⟨by rw [List.cons_append, ← heq], ?_, hsep', hsw', hlen'⟩
          intro a ha
          rcases List.mem_cons.1 ha with rfl | ha
          · exact hurl
          · exact hurl' a ha
      case isFalse => simp at h

theorem matchScheme_eq {s sch r : List Char} (h : matchScheme s = some (sch, r)) :
    s = sch ++ r := by
  rcases s with _ | ⟨a, _ | ⟨b, _ | ⟨c, _ | ⟨d, rest⟩⟩⟩⟩
  · simp [matchScheme] at h
  · simp [matchScheme] at h
  · simp [matchScheme] at h
  · simp [matchScheme] at h
  · rcases rest with _ | ⟨e, _ | ⟨f, _ | ⟨g, rest3⟩⟩⟩
    · simp [matchScheme] at h
    · simp [matchScheme] at h
    · simp [matchScheme] at h
    · rcases rest3 with _ | ⟨x, rest2⟩
      · simp only [matchScheme] at h
        split at h
        case isFalse => simp at h
        case isTrue =>
          split at h
          case isTrue =>
            simp only [Option.some.injEq, Prod.mk.injEq] at h
            rw [← h.1, ← h.2]
            rfl
          case isFalse => simp at h
      · simp only [matchScheme] at h
        split at h
        case isFalse => simp at h
        case isTrue =>
          split at h
          case isTrue =>
            simp only [Option.some.injEq, Prod.mk.injEq] at h
            rw [← h.1, ← h.2]
            rfl
          case isFalse =>
            split at h
            case isTrue =>
              simp only [Option.some.injEq, Prod.mk.injEq] at h
              rw [← h.1, ← h.2]
              rfl
            case isFalse => simp at h

theorem matchScheme_append {s sch r : List Char} (h : matchScheme s = some (sch, r)) :
    ∀ X, matchScheme (sch ++ X) = some (sch, X) := by
  rcases s with _ | ⟨a, _ | ⟨b, _ | ⟨c, _ | ⟨d, rest⟩⟩⟩⟩
  · simp [matchScheme] at h
  · simp [matchScheme] at h
  · simp [matchScheme] at h
  · simp [matchScheme] at h
  · rcases rest with _ | ⟨e, _ | ⟨f, _ | ⟨g, rest3⟩⟩⟩
    · simp [matchScheme] at h
    · simp [matchScheme] at h
    · simp [matchScheme] at h
    · rcases rest3 with _ | ⟨x, rest2⟩
      · simp only [matchScheme] at h
        split at h
        case isFalse => simp at h
        case isTrue hhttp =>
          split at h
          case isFalse => simp at h
          case isTrue hsl =>
            simp only [Option.some.injEq, Prod.mk.injEq] at h
            obtain ⟨hsch, _⟩ := h
            simp only [Bool.and_eq_true, decide_eq_true_eq] at hsl
            obtain ⟨⟨he, hf⟩, hg⟩ := hsl
            intro X
            rcases X with _ | ⟨y, ys⟩
            · rw [← hsch]
              simp only [List.append_nil, matchScheme, hhttp, if_true]
              rw [if_pos (by simp [he, hf, hg])]
            · rw [← hsch]
              simp only [List.cons_append, List.nil_append, matchScheme, hhttp, if_true]
              rw [if_neg (by simp [he, lowerEq]), if_pos (by simp [he, hf, hg])]
      · simp only [matchScheme] at h
        split at h
        case isFalse => simp at h
        case isTrue hhttp =>
          split at h
          case isTrue hs8 =>
            simp only [Option.some.injEq, Prod.mk.injEq] at h
            obtain ⟨hsch, _⟩ := h
            intro X
            rw [← hsch]
            simp only [List.cons_append, List.nil_append, matchScheme, hhttp, if_true]
            rw [if_pos hs8]
          case isFalse hs8 =>
            split at h
            case isFalse => simp at h
            case isTrue hsl =>
              simp only [Option.some.injEq, Prod.mk.injEq] at h
              obtain ⟨hsch, _⟩ := h
              simp only [Bool.and_eq_true, decide_eq_true_eq] at hsl
              obtain ⟨⟨he, hf⟩, hg⟩ := hsl
              intro X
              rcases X with _ | ⟨y, ys⟩
              · rw [← hsch]
                simp only [List.append_nil, matchScheme, hhttp, if_true]
                rw [if_pos (by simp [he, hf, hg])]
              · rw [← hsch]
                simp only [List.cons_append, List.nil_append, matchScheme, hhttp, if_true]
                rw [if_neg (by simp [he, lowerEq]), if_pos (by simp [he, hf, hg])]

theorem matchAt_eq {al s : List Char} {m : LinkMatch} (h : matchAt al s = some m) :
    s = g0 m ++ m.rest ∧
    (m.sep = '?' ∨ m.sep = '&') ∧
    startsWithCI al m.nameTxt = true ∧
    m.nameTxt.length = al.length ∧
    (∃ sch pre, m.g1 = sch ++ pre ∧ (∀ c ∈ pre, isUrlChar c = true) ∧
      (∀ X, matchScheme (sch ++ X) = some (sch, X))) ∧
    (∃ after : List Char, m.value = List.takeWhile isValChar after ∧
      m.rest = List.dropWhile isValChar after) := by
  rcases hms : matchScheme s with _ | ⟨sch, r1⟩
  · simp [matchAt, hms] at h
  · rcases hsp : scanParam al r1 with _ | ⟨⟨pre, sep, nm, after⟩⟩
    · simp [matchAt, hms, hsp] at h
    · simp only [matchAt, hms, hsp, Option.some.injEq] at h
      obtain ⟨heq, hurl, hsep, hsw, hlen⟩ := scanParam_eq hsp
      have hs := matchScheme_eq hms
      subst h
      refine ⟨?_, hsep, hsw, hlen,
        ⟨sch, pre, rfl, hurl, matchScheme_append hms⟩,
        ⟨after, rfl, rfl⟩⟩
      rw [hs, heq]
      simp only [g0, List.append_assoc, List.cons_append]
      rw [List.takeWhile_append_dropWhile]

/-! ## Controlled unfolding equations for `subFuel` -/

theorem subFuel_zero (al code s : List Char) : subFuel al code 0 s = (s, 0) := rfl

theorem subFuel_nil (al code : List Char) (fuel : Nat) :
    subFuel al code (fuel + 1) [] = ([], 0) := rfl

theorem subFuel_cons_match {al : List Char} {c : Char} {rest : List Char}
    {m : LinkMatch} (code : List Char) (fuel : Nat)
    (h : matchAt al (c :: rest) = some m) :
    subFuel al code (fuel + 1) (c :: rest) =
      (replacementFor code m ++ (subFuel al code fuel m.rest).1,
       (subFuel al code fuel m.rest).2 + 1) := by
  rw [subFuel, h]

theorem subFuel_cons_nomatch {al : List Char} {c : Char} {rest : List Char}
    (code : List Char) (fuel : Nat) (h : matchAt al (c :: rest) = none) :
    subFuel al code (fuel + 1) (c :: rest) =
      ((c :: (subFuel al code fuel rest).1), (subFuel al code fuel rest).2) := by
  rw [subFuel, h]

theorem matchAt_nil (al : List Char) : matchAt al [] = none := rfl

/-! ## C3: what one substitution does -/

/-- C3, amended.  For every successful match, the input splits verbatim as
    group 1, the separator, the matched parameter name, `=`, and the value;
    the replacement preserves group 1 and the separator and writes
    `extract_param_name` of the whole match as the parameter name, with the
    configured code as the value; the emitted name equals the matched
    pattern's own alias only when the match text contains no
    higher-priority alias (and the name is in canonical case), `invite`
    and `invitationCode` taking precedence over `ref`, and `invitationCode`
    over `invite`. -/
theorem pattern_match_replacement (al code : List Char) (s : List Char)
    (m : LinkMatch) (_hal : al ∈ ruleAliases) (h : matchAt al s = some m) :
    s = m.g1 ++ m.sep :: (m.nameTxt ++ '=' :: (m.value ++ m.rest)) ∧
    (m.sep = '?' ∨ m.sep = '&') ∧
    startsWithCI al m.nameTxt = true ∧
    (∀ fuel, subFuel al code (fuel + 1) s =
      ((m.g1 ++ m.sep :: (extract_param_name (g0 m) ++ '=' :: code)) ++
        (subFuel al code fuel m.rest).1,
       (subFuel al code fuel m.rest).2 + 1)) ∧
    (m.nameTxt = invitationCodeStr →
      extract_param_name (g0 m) = invitationCodeStr) ∧
    (m.nameTxt = inviteStr → isSubstr invitationCodeStr (g0 m) = false →
      extract_param_name (g0 m) = inviteStr) ∧
    (m.nameTxt = refStr → isSubstr invitationCodeStr (g0 m) = false →
      isSubstr inviteStr (g0 m) = false →
      extract_param_name (g0 m) = refStr) := by
  obtain ⟨hs, hsep, hsw, hlen, _, _⟩ := matchAt_eq h
  have hg0 : ∀ X : List Char, g0 m = (m.g1 ++ [m.sep]) ++ (m.nameTxt ++ '=' :: m.value) := by
    intro _
    simp [g0]
  refine ⟨?_, hsep, hsw, ?_, ?_, ?_, ?_⟩
  · rw [hs]
    simp [g0]
  · intro fuel
    rcases hsshape : s with _ | ⟨c, rest⟩
    · rw [hsshape] at h; simp [matchAt_nil] at h
    · rw [← hsshape]
      rw [hsshape] at h
      rw [hsshape, subFuel_cons_match code fuel h]
      rfl
  · intro hnm
    refine extract_param_name_invitation ?_
    rw [hg0 [], hnm]
    exact isSubstr_middle _ _ _
  · intro hnm hno
    refine extract_param_name_invite hno ?_
    rw [hg0 [], hnm]
    exact isSubstr_middle _ _ _
  · intro hnm hno1 hno2
    refine extract_param_name_ref hno1 hno2 ?_
    rw [hg0 [], hnm]
    exact isSubstr_middle _ _ _

/-- C3, witness: the rule-3 match on `http://a?ref=b`. -/
theorem pattern_match_replacement_witness :
    "http://a?ref=b".toList =
      "http://a".toList ++ '?' :: ("ref".toList ++ '=' :: ("b".toList ++ [])) ∧
    extract_param_name (g0 ⟨"http://a".toList, '?', "ref".toList, "b".toList, []⟩) =
      refStr := by
  have h := pattern_match_replacement refStr defaultInvitationCode
    "http://a?ref=b".toList ⟨"http://a".toList, '?', "ref".toList, "b".toList, []⟩
    (by simp [ruleAliases]) (by decide)
  exact ⟨h.1, h.2.2.2.2.2.2 rfl (by decide) (by decide)⟩

/-- C3, counterexample.  The claim says the emitted parameter name is the
    alias the matched pattern targets — `ref` for rule 3.  On
    `http://x.test/invite?ref=y` rule 3 matches, but the replacement is
    written with the name `invite` (the higher-priority alias probe hits
    the host part of the URL), not `ref`. -/
theorem pattern_name_not_rule_alias_cx :
    replace_links defaultInvitationCode "http://x.test/invite?ref=y".toList =
      ("http://x.test/invite?invite=511726258529".toList, 1) ∧
    "http://x.test/invite?invite=511726258529".toList ≠
      "http://x.test/invite?ref=511726258529".toList := by
  refine ⟨by decide, by decide⟩

/-! ## A pass that substitutes nothing is the identity -/

theorem subFuel_count_zero_id (al code : List Char) :
    ∀ (fuel : Nat) (s : List Char),
      (subFuel al code fuel s).2 = 0 → (subFuel al code fuel s).1 = s := by
  intro fuel
  induction fuel with
  | zero => intro s _; rfl
  | succ fuel ih =>
    intro s h
    rcases s with _ | ⟨c, rest⟩
    · rfl
    · rcases hm : matchAt al (c :: rest) with _ | m
      · rw [subFuel_cons_nomatch code fuel hm] at h ⊢
        simp only at h ⊢
        rw [ih rest h]
      · rw [subFuel_cons_match code fuel hm] at h
        simp at h

theorem subRule_count_zero_id {al code s : List Char}
    (h : (subRule al code s).2 = 0) : (subRule al code s).1 = s :=
  subFuel_count_zero_id al code s.length s h

theorem replace_links_count_zero_id {code t : List Char}
    (h : (replace_links code t).2 = 0) : (replace_links code t).1 = t := by
  rcases ht : t.isEmpty with _ | _
  · rw [replace_links, ht] at h ⊢
    simp only [Bool.false_eq_true, if_false] at h ⊢
    have h1 : (subRule invitationCodeStr code t).2 = 0 := by omega
    have hid1 := subRule_count_zero_id h1
    rw [hid1] at h ⊢
    have h2 : (subRule inviteStr code t).2 = 0 := by omega
    have hid2 := subRule_count_zero_id h2
    rw [hid2] at h ⊢
    have h3 : (subRule refStr code t).2 = 0 := by omega
    exact subRule_count_zero_id h3
  · rw [replace_links, ht]
    simp

/-! ## A pass that substituted something leaves a matchable parameter -/

theorem scanParam_isSome (al : List Char) :
    ∀ (pre : List Char) (sep : Char) (z : List Char),
      (∀ c ∈ pre, isUrlChar c = true) → (sep = '?' ∨ sep = '&') →
      (scanParam al (pre ++ sep :: (al ++ '=' :: z))).isSome = true := by
  intro pre
  induction pre with
  | nil =>
    intro sep z _ hsep
    rw [List.nil_append, scanParam]
    rw [if_pos ?_]
    · rfl
    · simp only [Bool.and_eq_true, Bool.or_eq_true, decide_eq_true_eq]
      refine ⟨⟨?_, startsWithCI_self_append al _⟩, ?_⟩
      · rcases hsep with h | h <;> simp [h]
      · rw [List.drop_left]
        rfl
  | cons c pre ih =>
    intro sep z hurl hsep
    rw [List.cons_append, scanParam]
    split
    · rfl
    · rw [if_pos (hurl c (List.mem_cons_self c pre))]
      rcases hrec : scanParam al (pre ++ sep :: (al ++ '=' :: z)) with _ | ⟨⟨p, s', n', a'⟩⟩
      · have := ih sep z (fun x hx => hurl x (List.mem_cons_of_mem c hx)) hsep
        rw [hrec] at this
        simp at this
      · rfl

theorem matchAt_isSome (al sch pre : List Char) (sep : Char) (z : List Char)
    (hsch : ∀ X, matchScheme (sch ++ X) = some (sch, X))
    (hurl : ∀ c ∈ pre, isUrlChar c = true) (hsep : sep = '?' ∨ sep = '&') :
    (matchAt al (sch ++ (pre ++ sep :: (al ++ '=' :: z)))).isSome = true := by
  rcases hsp : scanParam al (pre ++ sep :: (al ++ '=' :: z)) with _ | ⟨⟨p, s', n', a'⟩⟩
  · have := scanParam_isSome al pre sep z hurl hsep
    rw [hsp] at this
    simp at this
  · simp [matchAt, hsch, hsp]

theorem subFuel_pos_of_match (al code : List Char) :
    ∀ (u : List Char) (fuel : Nat) (s v : List Char), s = u ++ v →
      (matchAt al v).isSome = true → s.length ≤ fuel →
      1 ≤ (subFuel al code fuel s).2 := by
  intro u
  induction u with
  | nil =>
    intro fuel s v hs hm hfuel
    rw [List.nil_append] at hs
    subst hs
    rcases s with _ | ⟨c, rest⟩
    · rw [matchAt_nil] at hm; simp at hm
    · rcases fuel with _ | fuel
      · simp at hfuel
      · rcases hmm : matchAt al (c :: rest) with _ | m
        · rw [hmm] at hm; simp at hm
        · rw [subFuel_cons_match code fuel hmm]
          simp
  | cons c u ih =>
    intro fuel s v hs hm hfuel
    subst hs
    rcases fuel with _ | fuel
    · simp at hfuel
    · rcases hmm : matchAt al (c :: (u ++ v)) with _ | m
      · rw [List.cons_append, subFuel_cons_nomatch code fuel hmm]
        refine ih fuel (u ++ v) v rfl hm ?_
        simp only [List.cons_append, List.length_cons] at hfuel
        omega
      · rw [List.cons_append, subFuel_cons_match code fuel hmm]
        simp

/-- If a pass performed at least one substitution, its output contains an
    occurrence one of the three patterns matches (namely the first
    substitution written by the pass, whose parameter name is whatever
    `extract_param_name` emitted). -/
theorem subFuel_writes (al code : List Char) :
    ∀ (fuel : Nat) (s : List Char), 1 ≤ (subFuel al code fuel s).2 →
      ∃ nm, nm ∈ ruleAliases ∧ ∃ u v, (subFuel al code fuel s).1 = u ++ v ∧
        (matchAt nm v).isSome = true := by
  intro fuel
  induction fuel with
  | zero => intro s h; rw [subFuel_zero] at h; simp at h
  | succ fuel ih =>
    intro s h
    rcases s with _ | ⟨c, rest⟩
    · rw [subFuel_nil] at h; simp at h
    · rcases hm : matchAt al (c :: rest) with _ | m
      · rw [subFuel_cons_nomatch code fuel hm] at h ⊢
        simp only at h ⊢
        obtain ⟨nm, hnm, u, v, heq, hv⟩ := ih rest h
        exact ⟨nm, hnm, c :: u, v, by rw [heq, List.cons_append], hv⟩
      · rw [subFuel_cons_match code fuel hm]
        obtain ⟨_, _, _, _, ⟨sch, pre, hg1, hurl, hsch⟩, _⟩ := matchAt_eq hm
        refine ⟨extract_param_name (g0 m), extract_param_name_mem _, [],
          replacementFor code m ++ (subFuel al code fuel m.rest).1, by simp, ?_⟩
        have hshape : replacementFor code m ++ (subFuel al code fuel m.rest).1 =
            sch ++ (pre ++ m.sep :: (extract_param_name (g0 m) ++ '=' ::
              (code ++ (subFuel al code fuel m.rest).1))) := by
          rw [replacementFor, hg1]
          simp [List.append_assoc]
        rw [hshape]
        exact matchAt_isSome _ sch pre m.sep _ hsch hurl (matchAt_eq hm).2.1

theorem subRule_writes {al code s : List Char} (h : 1 ≤ (subRule al code s).2) :
    ∃ nm, nm ∈ ruleAliases ∧ ∃ u v, (subRule al code s).1 = u ++ v ∧
      (matchAt nm v).isSome = true :=
  subFuel_writes al code s.length s h

/-- Unfolding of `replace_links` for non-empty input: the three passes
    applied in sequence, with the counts summed. -/
theorem replace_links_eq_of_ne {code t : List Char} (h : t.isEmpty = false) :
    replace_links code t =
      ((subRule refStr code
          (subRule inviteStr code (subRule invitationCodeStr code t).1).1).1,
       (subRule invitationCodeStr code t).2 +
         (subRule inviteStr code (subRule invitationCodeStr code t).1).2 +
         (subRule refStr code
           (subRule inviteStr code (subRule invitationCodeStr code t).1).1).2) := by
  rw [replace_links, h]
  simp only [Bool.false_eq_true, if_false]

/-- A text containing a matchable occurrence gets at least one substitution
    from `replace_links`. -/
theorem replace_links_pos {code t : List Char}
    (h : ∃ nm, nm ∈ ruleAliases ∧ ∃ u v, t = u ++ v ∧ (matchAt nm v).isSome = true) :
    1 ≤ (replace_links code t).2 := by
  obtain ⟨nm, hnm, u, v, ht, hv⟩ := h
  have hvne : v ≠ [] := by
    intro he
    rw [he, matchAt_nil] at hv
    simp at hv
  have htne : t.isEmpty = false := by
    rw [ht]
    rcases v with _ | ⟨c, v⟩
    · exact absurd rfl hvne
    · rcases u with _ | ⟨b, u⟩ <;> rfl
  rw [replace_links_eq_of_ne htne]
  simp only [ruleAliases, List.mem_cons, List.not_mem_nil, or_false] at hnm
  by_cases h1 : (subRule invitationCodeStr code t).2 = 0
  · have hid1 : (subRule invitationCodeStr code t).1 = t := subRule_count_zero_id h1
    by_cases h2 : (subRule inviteStr code (subRule invitationCodeStr code t).1).2 = 0
    · have hid2 := subRule_count_zero_id h2
      rw [hid1] at hid2
      rcases hnm with rfl | rfl | rfl
      · have hp : 1 ≤ (subRule invitationCodeStr code t).2 :=
          subFuel_pos_of_match invitationCodeStr code u t.length t v ht hv le_rfl
        omega
      · have hp : 1 ≤ (subRule inviteStr code (subRule invitationCodeStr code t).1).2 := by
          rw [hid1]
          exact subFuel_pos_of_match inviteStr code u t.length t v ht hv le_rfl
        omega
      · have hp : 1 ≤ (subRule refStr code
            (subRule inviteStr code (subRule invitationCodeStr code t).1).1).2 := by
          rw [hid1, hid2]
          exact subFuel_pos_of_match refStr code u t.length t v ht hv le_rfl
        omega
    · omega
  · omega

/-- If `replace_links` substituted something, its output still contains a
    matchable occurrence. -/
theorem replace_links_writes {code t : List Char}
    (h : 1 ≤ (replace_links code t).2) :
    ∃ nm, nm ∈ ruleAliases ∧ ∃ u v,
      (replace_links code t).1 = u ++ v ∧ (matchAt nm v).isSome = true := by
  have htne : t.isEmpty = false := by
    rcases ht : t.isEmpty with _ | _
    · rfl
    · rw [replace_links, ht] at h
      simp at h
  rw [replace_links_eq_of_ne htne] at h ⊢
  simp only at h ⊢
  by_cases hc : (subRule refStr code
      (subRule inviteStr code (subRule invitationCodeStr code t).1).1).2 = 0
  · have hidc := subRule_count_zero_id hc
    rw [hidc]
    by_cases hb : (subRule inviteStr code (subRule invitationCodeStr code t).1).2 = 0
    · have hidb := subRule_count_zero_id hb
      rw [hidb]
      exact subRule_writes (by omega)
    · exact subRule_writes (by omega)
  · exact subRule_writes (by omega)

/-! ## C4 and C9: idempotence of the rewrite -/

/-- C4, amended.  Re-applying `replace_links` to its own output is a no-op
    with count 0 exactly when the first application performed no
    substitutions; any substitution leaves an occurrence that still matches
    (the parameter just rewritten), so the second pass then reports a
    nonzero count. -/
theorem second_pass_count (code t : List Char) :
    ((replace_links code ((replace_links code t).1)).2 = 0 ↔
      (replace_links code t).2 = 0) ∧
    ((replace_links code t).2 = 0 →
      replace_links code ((replace_links code t).1) = ((replace_links code t).1, 0)) := by
  have hnoop : (replace_links code t).2 = 0 →
      replace_links code ((replace_links code t).1) = ((replace_links code t).1, 0) := by
    intro h
    have hid := replace_links_count_zero_id h
    rw [hid]
    have hpair : replace_links code t =
        ((replace_links code t).1, (replace_links code t).2) := rfl
    rw [hid, h] at hpair
    exact hpair
  refine ⟨⟨?_, fun h => by rw [hnoop h]⟩, hnoop⟩
  intro h2
  by_contra h1
  have hpos2 : 1 ≤ (replace_links code ((replace_links code t).1)).2 :=
    replace_links_pos (replace_links_writes (by omega))
  omega

/-- C4, witness for the amended theorem at a text with no matches. -/
theorem second_pass_count_witness :
    replace_links defaultInvitationCode
        ((replace_links defaultInvitationCode "no links here".toList).1) =
      ((replace_links defaultInvitationCode "no links here".toList).1, 0) :=
  (second_pass_count defaultInvitationCode "no links here".toList).2 (by decide)

/-- C4, counterexample.  The spec's test input
    `check this http://x.test/join?invitationCode=OLD123` is rewritten once;
    the output contains no raw parameter other than the substituted one, yet
    the second pass reports count 1, not 0 — the substituted parameter still
    matches the pattern. -/
theorem second_pass_not_zero_cx :
    replace_links defaultInvitationCode
        "check this http://x.test/join?invitationCode=OLD123".toList =
      ("check this http://x.test/join?invitationCode=511726258529".toList, 1) ∧
    (replace_links defaultInvitationCode
        "check this http://x.test/join?invitationCode=511726258529".toList).2 = 1 ∧
    (1 : Nat) ≠ 0 := by
  refine ⟨by decide, by decide, by decide⟩

/-- C9, counterexample.  The default invitation code `511726258529`
    contains no separators, whitespace, or alias names, yet the rewritten
    text is not a fixed point: on
    `http://a?invite=u?invitationCode=w&http://b?invite=x` the second
    application renames the surviving `invite` parameter to
    `invitationCode` (its pass-2 match prefix now contains the substituted
    `invitationCode` parameter), changing the text. -/
theorem rewrite_not_fixed_point_cx :
    (defaultInvitationCode.all
      (fun c => !(c = '?') && !(c = '&') && !(isSpace c)) = true) ∧
    isSubstr invitationCodeStr defaultInvitationCode = false ∧
    isSubstr inviteStr defaultInvitationCode = false ∧
    isSubstr refStr defaultInvitationCode = false ∧
    (replace_links defaultInvitationCode
      ((replace_links defaultInvitationCode
        "http://a?invite=u?invitationCode=w&http://b?invite=x".toList).1)).1 ≠
      (replace_links defaultInvitationCode
        "http://a?invite=u?invitationCode=w&http://b?invite=x".toList).1 := by
  refine ⟨by decide, by decide, by decide, by decide, by decide⟩

/-- C9, amended.  The rewritten text is in general not a fixed point of
    `replace_links` — a second application can rename a parameter whose new
    match prefix contains a higher-priority alias — but it is a fixed point
    whenever the first application performed no substitutions. -/
theorem rewrite_fixed_point_when_untouched (code t : List Char)
    (h : (replace_links code t).2 = 0) :
    (replace_links code ((replace_links code t).1)).1 = (replace_links code t).1 := by
  rw [replace_links_count_zero_id h]
  exact replace_links_count_zero_id h

/-- C9, witness for the amended theorem at a text with no matches. -/
theorem rewrite_fixed_point_witness :
    (replace_links defaultInvitationCode
        ((replace_links defaultInvitationCode "hello world".toList).1)).1 =
      (replace_links defaultInvitationCode "hello world".toList).1 :=
  rewrite_fixed_point_when_untouched defaultInvitationCode "hello world".toList
    (by decide)

end MirrorPlus
